import Mathlib

/-!
# Verification of the Pyth accumulator binary codec

Shallow embedding of the binary codec of the Pyth-Oracle-Data-Processor
repository: the decoder (`PythDataDecoder.parsePythAccumulatorUpdate` and
friends, file `src/utils/decoder.ts`), the encoder
(`PythDataEncoder.reencodeSelectedFeeds`, `createRealAccumulatorUpdate`,
`encodeSinglePriceUpdate`, `createUpdatePriceFeedsCalldata`, file
`src/utils/encoder.ts`) and the shape validator
(`PythDataDecoder.validateDecodedData`).

Modelling conventions:
* A Node `Buffer` is a `List Nat` of byte values.  `Buffer.readXBE` either
  returns a value or throws a `RangeError` when fewer bytes remain than the
  read needs; this is modelled with `Except DecodeError`, the out-of-range
  throw becoming `DecodeError.outOfRange`.  `Buffer.subarray` clamps and
  never throws, exactly as in Node.
* `Buffer.writeXBE` throws a `RangeError` when the value does not fit the
  field width; this is modelled with `Except EncodeError`.
* The hex-string feed id of a record is modelled by its byte content
  (`List Nat`), since the encoder turns the string into bytes and the
  decoder turns bytes back into a hex string.
* JavaScript `number` fields that only ever hold unsigned integers
  (publish times) are modelled as `Nat`; `bigint` fields holding signed
  64-bit values are modelled as `Int`.
* The wall-clock metadata (`timestamp`, `processingTime`) and the console
  logging of the source are ambient effects outside the codec and are not
  modelled.
-/

/-- The number `2 ^ 64`, the modulus of unsigned 64-bit fields. -/
def pow64 : Nat := 18446744073709551616

/-- The number `2 ^ 63`. -/
def pow63 : Nat := 9223372036854775808

/-- The number `2 ^ 32`. -/
def pow32 : Nat := 4294967296

/-- The number `2 ^ 31`. -/
def pow31 : Nat := 2147483648

/-- Big-endian byte encoding of `n` on `k` bytes (`Buffer.writeUIntBE`
family): most significant byte first, value taken modulo `256 ^ k`. -/
def beBytes : Nat → Nat → List Nat
  | 0, _ => []
  | k + 1, n => beBytes k (n / 256) ++ [n % 256]

/-- Value of a big-endian byte list, most significant byte first. -/
def bytesToNat (bs : List Nat) : Nat :=
  bs.foldl (fun a b => a * 256 + b) 0

/-- `bufSlice b off k` = the bytes `b[off], …, b[off+k-1]`, clamped at the end
of the buffer exactly as `Buffer.subarray(off, off + k)` clamps. -/
def bufSlice (b : List Nat) (off k : Nat) : List Nat :=
  (b.drop off).take k

/-- Errors thrown while decoding: the explicit magic check of
`parsePythAccumulatorUpdate`, and the `RangeError` Node throws when a
`Buffer.readXBE` call runs past the end of the buffer. -/
inductive DecodeError where
  | badMagic : DecodeError
  | outOfRange : DecodeError
deriving DecidableEq, Repr

/-- Errors thrown while encoding: the explicit index-resolution check and
feed-id length check of the encoder, and the `RangeError` Node throws when
a `Buffer.writeXBE` call receives an out-of-range value. -/
inductive EncodeError where
  | indexNotFound (found requested : Nat) : EncodeError
  | invalidFeedIdLength (len : Nat) : EncodeError
  | rangeError : EncodeError
deriving DecidableEq, Repr

/-- `Buffer.readUIntBE`-style read of `k` bytes at `off`: fails with a
`RangeError` when fewer than `k` bytes remain. -/
def readBE (b : List Nat) (off k : Nat) : Except DecodeError Nat :=
  if off + k ≤ b.length then .ok (bytesToNat (bufSlice b off k)) else .error .outOfRange

/-- Interpret an unsigned 64-bit value as a signed one, as
`Buffer.readBigInt64BE` does (two's complement). -/
def toSigned64 (n : Nat) : Int :=
  if n < pow63 then (n : Int) else (n : Int) - (pow64 : Int)

/-- Interpret an unsigned 32-bit value as a signed one, as
`Buffer.readInt32BE` does (two's complement). -/
def toSigned32 (n : Nat) : Int :=
  if n < pow31 then (n : Int) else (n : Int) - (pow32 : Int)

/-- `Buffer.readBigInt64BE`: an 8-byte big-endian signed read. -/
def readI64 (b : List Nat) (off : Nat) : Except DecodeError Int :=
  (readBE b off 8).map toSigned64

/-- `Buffer.readInt32BE`: a 4-byte big-endian signed read. -/
def readI32 (b : List Nat) (off : Nat) : Except DecodeError Int :=
  (readBE b off 4).map toSigned32

/-- The record type produced by the decoder (`DecodedPriceUpdate` in
`src/types`): the feed id is kept as its 32 raw bytes, `slot` is the field
the binary parse always sets to 0. -/
structure DecodedPriceUpdate where
  feedId : List Nat
  priceValue : Int
  confidence : Nat
  exponent : Int
  publishTime : Nat
  emaPrice : Int
  emaConfidence : Nat
  slot : Nat
deriving DecidableEq, Repr, Inhabited

/-- `PythDataDecoder.parseSinglePriceUpdate`: reads the 2-byte declared
message size, the 1-byte message type, the 32-byte feed id
(`Buffer.subarray`, clamping), then price, confidence, exponent,
publish time, previous publish time, EMA price and EMA confidence at their
fixed offsets.  The returned `nextOffset` is the cumulative sum of the
field widths (`offset + 87`); the declared message size is read but not
used for advancement, and the message type is not validated. -/
def parseSinglePriceUpdate (buffer : List Nat) (offset : Nat) :
    Except DecodeError (DecodedPriceUpdate × Nat) := do
  let _messageSize ← readBE buffer offset 2
  let _messageType ← readBE buffer (offset + 2) 1
  let feedId := bufSlice buffer (offset + 3) 32
  let priceValue ← readI64 buffer (offset + 35)
  let confidence ← readBE buffer (offset + 43) 8
  let exponent ← readI32 buffer (offset + 51)
  let publishTime ← readBE buffer (offset + 55) 8
  let _prevPublishTime ← readBE buffer (offset + 63) 8
  let emaPrice ← readI64 buffer (offset + 71)
  let emaConfidence ← readBE buffer (offset + 79) 8
  pure (⟨feedId, priceValue, confidence, exponent, publishTime, emaPrice,
         emaConfidence, 0⟩, offset + 87)

/-- The header fields read by `parsePythAccumulatorUpdate`, in source
order. -/
structure AccHeader where
  magic : Nat
  majorVersion : Nat
  minorVersion : Nat
  trailingHeaderSize : Nat
  updateType : Nat
  numUpdates : Nat
deriving DecidableEq, Repr

/-- The header-parsing prefix of
`PythDataDecoder.parsePythAccumulatorUpdate`: magic at offset 0 (checked
against `0x504e4155`), versions at 4 and 6, trailing header size `T` at 8,
update type at 10 (read but not checked), then — after skipping `T`
bytes — the message count at `11 + T`.  Returns the header fields and the
offset `13 + T` of the first message. -/
def parseAccHeader (buffer : List Nat) : Except DecodeError (AccHeader × Nat) := do
  let magic ← readBE buffer 0 4
  if magic = 0x504e4155 then
    let majorVersion ← readBE buffer 4 2
    let minorVersion ← readBE buffer 6 2
    let trailingHeaderSize ← readBE buffer 8 2
    let updateType ← readBE buffer 10 1
    let numUpdates ← readBE buffer (11 + trailingHeaderSize) 2
    pure (⟨magic, majorVersion, minorVersion, trailingHeaderSize, updateType,
           numUpdates⟩, 13 + trailingHeaderSize)
  else
    .error .badMagic

/-- The message loop of `parsePythAccumulatorUpdate`: parse `n` messages
starting at `off`, each one handing its `nextOffset` to the next. -/
def parseLoop (buffer : List Nat) : Nat → Nat → Except DecodeError (List DecodedPriceUpdate)
  | 0, _ => .ok []
  | n + 1, off => do
    let r ← parseSinglePriceUpdate buffer off
    let rest ← parseLoop buffer n r.2
    pure (r.1 :: rest)

/-- `PythDataDecoder.parsePythAccumulatorUpdate`: parse the header, then
the declared number of messages. -/
def parsePythAccumulatorUpdate (buffer : List Nat) :
    Except DecodeError (List DecodedPriceUpdate) := do
  let h ← parseAccHeader buffer
  parseLoop buffer h.1.numUpdates h.2

/-- `Buffer.writeUInt16BE`: throws a `RangeError` unless the value fits in
16 bits. -/
def writeU16 (n : Nat) : Except EncodeError (List Nat) :=
  if n ≤ 65535 then .ok (beBytes 2 n) else .error .rangeError

/-- `Buffer.writeBigUInt64BE`: throws a `RangeError` unless the value fits
in 64 bits. -/
def writeU64 (n : Nat) : Except EncodeError (List Nat) :=
  if n < pow64 then .ok (beBytes 8 n) else .error .rangeError

/-- `Buffer.writeBigInt64BE`: throws a `RangeError` unless the value fits
in a signed 64-bit field; stores two's complement. -/
def writeI64 (x : Int) : Except EncodeError (List Nat) :=
  if -(pow63 : Int) ≤ x ∧ x < (pow63 : Int) then
    .ok (beBytes 8 (x % (pow64 : Int)).toNat)
  else
    .error .rangeError

/-- `Buffer.writeInt32BE`: throws a `RangeError` unless the value fits in
a signed 32-bit field; stores two's complement. -/
def writeI32 (x : Int) : Except EncodeError (List Nat) :=
  if -(pow31 : Int) ≤ x ∧ x < (pow31 : Int) then
    .ok (beBytes 4 (x % (pow32 : Int)).toNat)
  else
    .error .rangeError

/-- `PythDataEncoder.encodeSinglePriceUpdate`: checks the feed id is 32
bytes, serializes message type 0, feed id, price, confidence, exponent,
publish time, previous publish time (the source reuses the publish time),
EMA price and EMA confidence, and prepends the 2-byte message size
computed over everything after the size field. -/
def encodeSinglePriceUpdate (u : DecodedPriceUpdate) : Except EncodeError (List Nat) := do
  if u.feedId.length = 32 then
    let p ← writeI64 u.priceValue
    let c ← writeU64 u.confidence
    let e ← writeI32 u.exponent
    let t ← writeU64 u.publishTime
    let ep ← writeI64 u.emaPrice
    let ec ← writeU64 u.emaConfidence
    let messageData := [0] ++ u.feedId ++ p ++ c ++ e ++ t ++ t ++ ep ++ ec
    let sz ← writeU16 messageData.length
    pure (sz ++ messageData)
  else
    .error (.invalidFeedIdLength u.feedId.length)

/-- `PythDataEncoder.createRealAccumulatorUpdate`: the 13-byte header
(magic `PNAU`, version 1.0, trailing header size 0, update type 0, 2-byte
count of the selected updates) followed by the encoded messages. -/
def createRealAccumulatorUpdate (selectedUpdates : List DecodedPriceUpdate) :
    Except EncodeError (List Nat) := do
  let numUpdates ← writeU16 selectedUpdates.length
  let msgs ← selectedUpdates.mapM encodeSinglePriceUpdate
  pure (beBytes 4 0x504e4155 ++ [0, 1, 0, 0] ++ beBytes 2 0 ++ [0] ++
        numUpdates ++ msgs.flatten)

/-- The success payload of `reencodeSelectedFeeds` (the `data` object of
its `ProcessingResult`), without the wall-clock metadata. -/
structure ReencodeData where
  selectedUpdates : List DecodedPriceUpdate
  binaryData : List Nat
  originalCount : Nat
  selectedCount : Nat
  feedIds : List (List Nat)
deriving DecidableEq, Repr

/-- `PythDataEncoder.reencodeSelectedFeeds`: resolve each selected index
against the record list (`allUpdates[index]`, dropping the `undefined`
results), fail with the index-not-found error naming the resolved and
requested counts when not every index resolved, otherwise build the
accumulator update. -/
def reencodeSelectedFeeds (allUpdates : List DecodedPriceUpdate)
    (selectedIndices : List Nat) : Except EncodeError ReencodeData := do
  let selectedUpdates := selectedIndices.filterMap fun i => allUpdates.get? i
  if selectedUpdates.length ≠ selectedIndices.length then
    .error (.indexNotFound selectedUpdates.length selectedIndices.length)
  else
    let buf ← createRealAccumulatorUpdate selectedUpdates
    pure ⟨selectedUpdates, buf, allUpdates.length, selectedUpdates.length,
          selectedUpdates.map (·.feedId)⟩

/-- A record whose fields fit the wire widths: 32-byte feed id, signed
64-bit price and EMA price, unsigned 64-bit confidence, EMA confidence
and publish time, signed 32-bit exponent. -/
def ValidRecord (u : DecodedPriceUpdate) : Prop :=
  u.feedId.length = 32 ∧
  -(pow63 : Int) ≤ u.priceValue ∧ u.priceValue < (pow63 : Int) ∧
  u.confidence < pow64 ∧
  -(pow31 : Int) ≤ u.exponent ∧ u.exponent < (pow31 : Int) ∧
  u.publishTime < pow64 ∧
  -(pow63 : Int) ≤ u.emaPrice ∧ u.emaPrice < (pow63 : Int) ∧
  u.emaConfidence < pow64

instance (u : DecodedPriceUpdate) : Decidable (ValidRecord u) := by
  unfold ValidRecord; infer_instance

/-- Hex digits of `n`, most significant first, by repeated division; the
first argument is fuel (any fuel at least `n` is enough). -/
def hexDigitsAux : Nat → Nat → List Nat
  | 0, _ => []
  | fuel + 1, n => if n = 0 then [] else hexDigitsAux fuel (n / 16) ++ [n % 16]

/-- `n.toString(16)` as a list of hex-digit values (`0` gives `"0"`). -/
def natToHexDigits (n : Nat) : List Nat :=
  if n = 0 then [0] else hexDigitsAux n n

/-- `padStart(64, "0")` on a hex-digit list. -/
def padStart64 (ds : List Nat) : List Nat :=
  List.replicate (64 - ds.length) 0 ++ ds

/-- Value of a hex-digit list, most significant digit first. -/
def hexValue (ds : List Nat) : Nat :=
  ds.foldl (fun a d => a * 16 + d) 0

/-- The hex digits of the function selector `0xa9852bcc`. -/
def selectorDigits : List Nat := [10, 9, 8, 5, 2, 11, 12, 12]

/-- The 64-hex-digit ABI offset word of value `0x20`, the literal string
the source uses. -/
def offsetWordDigits : List Nat :=
  List.replicate 62 0 ++ [2, 0]

/-- `PythDataEncoder.createUpdatePriceFeedsCalldata`, at the level of hex
digits (each character of the hex strings the source manipulates is one
entry): selector, the constant offset word, the byte length of the payload
padded to 64 hex digits, the payload, then zero padding to the next
32-byte boundary. -/
def createUpdatePriceFeedsCalldata (updateData : List Nat) : List Nat :=
  let byteLen := updateData.length / 2
  let lengthWord := padStart64 (natToHexDigits byteLen)
  let paddingNeeded := (32 - byteLen % 32) % 32
  selectorDigits ++ offsetWordDigits ++ lengthWord ++ updateData ++
    List.replicate (paddingNeeded * 2) 0

/-- A dynamically-typed JavaScript value, as far as the `typeof` checks of
`validateDecodedData` can distinguish them. -/
inductive JsVal where
  | jbigint (i : Int) : JsVal
  | jnumber (x : Int) : JsVal
  | jstring (s : List Char) : JsVal
  | jundefined : JsVal
deriving DecidableEq, Repr

/-- `typeof v === "bigint"`. -/
def isBigintV : JsVal → Bool
  | .jbigint _ => true
  | _ => false

/-- `typeof v === "number"`. -/
def isNumberV : JsVal → Bool
  | .jnumber _ => true
  | _ => false

/-- `s.startsWith("0x")` on the character list of a string. -/
def startsWith0x : List Char → Bool
  | '0' :: 'x' :: _ => true
  | _ => false

/-- A record as `validateDecodedData` sees it: a feed-id string (the empty
list doubles for the falsy missing string) and dynamically-typed numeric
fields. -/
structure RawUpdate where
  feedId : List Char
  priceValue : JsVal
  confidence : JsVal
  exponent : JsVal
  publishTime : JsVal
deriving DecidableEq, Repr

/-- The error kinds `validateDecodedData` can push, one per check. -/
inductive ValidationErr where
  | invalidFeedIdFormat : ValidationErr
  | priceNotBigint : ValidationErr
  | confidenceNotBigint : ValidationErr
  | exponentNotNumber : ValidationErr
  | publishTimeNotNumber : ValidationErr
deriving DecidableEq, Repr

/-- The errors `validateDecodedData` pushes for the record at `index`:
feed id falsy or not starting with `0x`; price or confidence not a
bigint; exponent or publish time not a number. -/
def recordValErrs (index : Nat) (u : RawUpdate) : List (Nat × ValidationErr) :=
  (if u.feedId.isEmpty || !startsWith0x u.feedId then
    [(index, ValidationErr.invalidFeedIdFormat)] else []) ++
  (if !isBigintV u.priceValue then [(index, ValidationErr.priceNotBigint)] else []) ++
  (if !isBigintV u.confidence then [(index, ValidationErr.confidenceNotBigint)] else []) ++
  (if !isNumberV u.exponent then [(index, ValidationErr.exponentNotNumber)] else []) ++
  (if !isNumberV u.publishTime then [(index, ValidationErr.publishTimeNotNumber)] else [])

/-- The `forEach` of `validateDecodedData`, carrying the running index. -/
def valErrsFrom : Nat → List RawUpdate → List (Nat × ValidationErr)
  | _, [] => []
  | k, u :: us => recordValErrs k u ++ valErrsFrom (k + 1) us

/-- `PythDataDecoder.validateDecodedData`: collect the per-record shape
errors; valid exactly when the error list is empty. -/
def validateDecodedData (decodedUpdates : List RawUpdate) :
    Bool × List (Nat × ValidationErr) :=
  let errs := valErrsFrom 0 decodedUpdates
  (errs.isEmpty, errs)

/-- The shape a record must have to pass every check of
`validateDecodedData` (as the source actually checks it). -/
def jsShapeOk (u : RawUpdate) : Bool :=
  (!u.feedId.isEmpty && startsWith0x u.feedId) &&
  isBigintV u.priceValue && isBigintV u.confidence &&
  isNumberV u.exponent && isNumberV u.publishTime

/-- `Char.isHexDigit`-style check used to state the spec reading of the
feed-id validation. -/
def isHexDigitChar (c : Char) : Bool :=
  ('0' ≤ c && c ≤ '9') || ('a' ≤ c && c ≤ 'f') || ('A' ≤ c && c ≤ 'F')

/-- Modelled from the spec (the claim wording, for comparison with the
code): a feed id that is a `0x`-prefixed string of exactly 64 hex
characters. -/
def specFeedIdOk (cs : List Char) : Bool :=
  cs.length = 66 && startsWith0x cs && (cs.drop 2).all isHexDigitChar

/-- The record shape the spec sentence describes for the validator. -/
def specShapeOk (u : RawUpdate) : Bool :=
  specFeedIdOk u.feedId &&
  isBigintV u.priceValue && isBigintV u.confidence &&
  isNumberV u.exponent && isNumberV u.publishTime

/-- Two's-complement bytes of a signed 64-bit value, as
`writeBigInt64BE` stores them. -/
def i64bytes (x : Int) : List Nat := beBytes 8 (x % (pow64 : Int)).toNat

/-- Two's-complement bytes of a signed 32-bit value, as `writeInt32BE`
stores them. -/
def i32bytes (x : Int) : List Nat := beBytes 4 (x % (pow32 : Int)).toNat

/-- The 87 bytes `encodeSinglePriceUpdate` produces for a valid record:
declared size 85, message type 0, feed id, then the numeric fields. -/
def msgBytes (u : DecodedPriceUpdate) : List Nat :=
  beBytes 2 85 ++ [0] ++ u.feedId ++ i64bytes u.priceValue ++
    beBytes 8 u.confidence ++ i32bytes u.exponent ++
    beBytes 8 u.publishTime ++ beBytes 8 u.publishTime ++
    i64bytes u.emaPrice ++ beBytes 8 u.emaConfidence

/-- What the decoder reconstructs from the message bytes of `u`: the same
record with `slot` reset to 0. -/
def decodedOf (u : DecodedPriceUpdate) : DecodedPriceUpdate :=
  { u with slot := 0 }

/-- The 13 header bytes the encoder emits, generalised over the
update-type byte `v` and the declared count `n`. -/
def header13v (v n : Nat) : List Nat :=
  [80, 78, 65, 85, 0, 1, 0, 0, 0, 0, v] ++ beBytes 2 n

deriving instance DecidableEq for Except

@[simp] lemma exceptBind_ok {ε α β : Type} (a : α) (f : α → Except ε β) :
    (Bind.bind (Except.ok a) f : Except ε β) = f a := rfl

@[simp] lemma exceptBind_error {ε α β : Type} (e : ε) (f : α → Except ε β) :
    (Bind.bind (Except.error e) f : Except ε β) = Except.error e := rfl

@[simp] lemma beBytes_length (k n : Nat) : (beBytes k n).length = k := by
  induction k generalizing n with
  | zero => simp [beBytes]
  | succ k ih => simp [beBytes, ih]

lemma bytesToNat_append_single (xs : List Nat) (b : Nat) :
    bytesToNat (xs ++ [b]) = bytesToNat xs * 256 + b := by
  simp [bytesToNat, List.foldl_append]

@[simp] lemma bytesToNat_singleton (b : Nat) : bytesToNat [b] = b := by
  simp [bytesToNat]

lemma bytesToNat_beBytes (k n : Nat) (h : n < 256 ^ k) :
    bytesToNat (beBytes k n) = n := by
  induction k generalizing n with
  | zero => simp [beBytes, bytesToNat]; omega
  | succ k ih =>
    have hdiv : n / 256 < 256 ^ k := by
      rw [Nat.div_lt_iff_lt_mul (by norm_num)]
      calc n < 256 ^ (k + 1) := h
        _ = 256 ^ k * 256 := by ring
    rw [beBytes, bytesToNat_append_single, ih _ hdiv]
    omega

lemma bufSlice_exact (X Y rest : List Nat) :
    bufSlice (X ++ (Y ++ rest)) X.length Y.length = Y := by
  simp [bufSlice, List.drop_left, List.take_left]

lemma bufSlice_of_decomp (b X Y rest : List Nat) (off k : Nat)
    (hb : b = X ++ (Y ++ rest)) (hoff : off = X.length) (hk : k = Y.length) :
    bufSlice b off k = Y := by
  subst hb hoff hk; exact bufSlice_exact X Y rest

lemma readBE_of_decomp (b X Y rest : List Nat) (off k : Nat)
    (hb : b = X ++ (Y ++ rest)) (hoff : off = X.length) (hk : k = Y.length) :
    readBE b off k = .ok (bytesToNat Y) := by
  subst hb hoff hk
  rw [readBE, if_pos (by simp), bufSlice_exact]

lemma i64bytes_toNat_lt (x : Int) : (x % (pow64 : Int)).toNat < 256 ^ 8 := by
  have : (0:Int) < (pow64 : Int) := by norm_num [pow64]
  have h1 := Int.emod_nonneg x (ne_of_gt this)
  have h2 := Int.emod_lt_of_pos x this
  have : (256:Nat) ^ 8 = pow64 := by norm_num [pow64]
  omega

lemma toSigned64_i64bytes (x : Int) (h1 : -(pow63 : Int) ≤ x) (h2 : x < (pow63 : Int)) :
    toSigned64 (bytesToNat (i64bytes x)) = x := by
  rw [i64bytes, bytesToNat_beBytes _ _ (i64bytes_toNat_lt x)]
  have hp : (0:Int) < (pow64 : Int) := by norm_num [pow64]
  have hm1 := Int.emod_nonneg x (ne_of_gt hp)
  have hm2 := Int.emod_lt_of_pos x hp
  have hrel : x % (pow64 : Int) = x ∨ x % (pow64 : Int) = x + (pow64 : Int) := by
    rcases le_or_lt 0 x with hx | hx
    · left
      exact Int.emod_eq_of_lt hx (by unfold pow63 pow64 at *; omega)
    · right
      have : (x + (pow64 : Int)) % (pow64 : Int) = x % (pow64 : Int) := by
        simp [Int.add_mul_emod_self_left]
      rw [← this]
      exact Int.emod_eq_of_lt (by unfold pow63 pow64 at *; omega)
        (by unfold pow63 pow64 at *; omega)
  unfold toSigned64 pow63 pow64 at *
  split <;> omega

lemma i32bytes_toNat_lt (x : Int) : (x % (pow32 : Int)).toNat < 256 ^ 4 := by
  have hp : (0:Int) < (pow32 : Int) := by norm_num [pow32]
  have h1 := Int.emod_nonneg x (ne_of_gt hp)
  have h2 := Int.emod_lt_of_pos x hp
  have : (256:Nat) ^ 4 = pow32 := by norm_num [pow32]
  omega

lemma toSigned32_i32bytes (x : Int) (h1 : -(pow31 : Int) ≤ x) (h2 : x < (pow31 : Int)) :
    toSigned32 (bytesToNat (i32bytes x)) = x := by
  rw [i32bytes, bytesToNat_beBytes _ _ (i32bytes_toNat_lt x)]
  have hp : (0:Int) < (pow32 : Int) := by norm_num [pow32]
  have hm1 := Int.emod_nonneg x (ne_of_gt hp)
  have hm2 := Int.emod_lt_of_pos x hp
  have hrel : x % (pow32 : Int) = x ∨ x % (pow32 : Int) = x + (pow32 : Int) := by
    rcases le_or_lt 0 x with hx | hx
    · left
      exact Int.emod_eq_of_lt hx (by unfold pow31 pow32 at *; omega)
    · right
      have : (x + (pow32 : Int)) % (pow32 : Int) = x % (pow32 : Int) := by
        simp [Int.add_mul_emod_self_left]
      rw [← this]
      exact Int.emod_eq_of_lt (by unfold pow31 pow32 at *; omega)
        (by unfold pow31 pow32 at *; omega)
  unfold toSigned32 pow31 pow32 at *
  split <;> omega

@[simp] lemma i64bytes_length (x : Int) : (i64bytes x).length = 8 := by
  simp [i64bytes]

@[simp] lemma i32bytes_length (x : Int) : (i32bytes x).length = 4 := by
  simp [i32bytes]

lemma msgBytes_length (u : DecodedPriceUpdate) (h : u.feedId.length = 32) :
    (msgBytes u).length = 87 := by
  simp [msgBytes, h]

@[simp] lemma exceptMap_ok {ε α β : Type} (f : α → β) (a : α) :
    (Except.map f (Except.ok a) : Except ε β) = Except.ok (f a) := rfl

@[simp] lemma exceptMap_error {ε α β : Type} (f : α → β) (e : ε) :
    (Except.map f (Except.error e) : Except ε β) = Except.error e := rfl

lemma parseSingle_on_msg (pre rest : List Nat) (u : DecodedPriceUpdate)
    (hval : ValidRecord u) :
    parseSinglePriceUpdate (pre ++ msgBytes u ++ rest) pre.length =
      .ok (decodedOf u, pre.length + 87) := by
  obtain ⟨hfeed, hp1, hp2, hc, he1, he2, ht, hep1, hep2, hec⟩ := hval
  have h1 : readBE (pre ++ msgBytes u ++ rest) pre.length 2 = .ok 85 := by
    rw [readBE_of_decomp (pre ++ msgBytes u ++ rest) pre (beBytes 2 85)
      ([0] ++ u.feedId ++ i64bytes u.priceValue ++ beBytes 8 u.confidence ++
        i32bytes u.exponent ++ beBytes 8 u.publishTime ++ beBytes 8 u.publishTime ++
        i64bytes u.emaPrice ++ beBytes 8 u.emaConfidence ++ rest) _ _
      (by simp [msgBytes]) rfl (by simp),
      bytesToNat_beBytes _ _ (by norm_num)]
  have h2 : readBE (pre ++ msgBytes u ++ rest) (pre.length + 2) 1 = .ok 0 := by
    rw [readBE_of_decomp (pre ++ msgBytes u ++ rest) (pre ++ beBytes 2 85) [0]
      (u.feedId ++ i64bytes u.priceValue ++ beBytes 8 u.confidence ++
        i32bytes u.exponent ++ beBytes 8 u.publishTime ++ beBytes 8 u.publishTime ++
        i64bytes u.emaPrice ++ beBytes 8 u.emaConfidence ++ rest) _ _
      (by simp [msgBytes]) (by simp) (by simp)]
    simp
  have h3 : bufSlice (pre ++ msgBytes u ++ rest) (pre.length + 3) 32 = u.feedId := by
    exact bufSlice_of_decomp _ (pre ++ beBytes 2 85 ++ [0]) u.feedId
      (i64bytes u.priceValue ++ beBytes 8 u.confidence ++
        i32bytes u.exponent ++ beBytes 8 u.publishTime ++ beBytes 8 u.publishTime ++
        i64bytes u.emaPrice ++ beBytes 8 u.emaConfidence ++ rest) _ _
      (by simp [msgBytes]) (by simp) (by omega)
  have h4 : readBE (pre ++ msgBytes u ++ rest) (pre.length + 35) 8 =
      .ok (bytesToNat (i64bytes u.priceValue)) := by
    exact readBE_of_decomp _ (pre ++ beBytes 2 85 ++ [0] ++ u.feedId)
      (i64bytes u.priceValue)
      (beBytes 8 u.confidence ++ i32bytes u.exponent ++ beBytes 8 u.publishTime ++
        beBytes 8 u.publishTime ++ i64bytes u.emaPrice ++
        beBytes 8 u.emaConfidence ++ rest) _ _
      (by simp [msgBytes]) (by simp [hfeed]) (by simp)
  have h5 : readBE (pre ++ msgBytes u ++ rest) (pre.length + 43) 8 =
      .ok u.confidence := by
    rw [readBE_of_decomp _ (pre ++ beBytes 2 85 ++ [0] ++ u.feedId ++
        i64bytes u.priceValue) (beBytes 8 u.confidence)
      (i32bytes u.exponent ++ beBytes 8 u.publishTime ++ beBytes 8 u.publishTime ++
        i64bytes u.emaPrice ++ beBytes 8 u.emaConfidence ++ rest) _ _
      (by simp [msgBytes]) (by simp [hfeed]) (by simp),
      bytesToNat_beBytes _ _ (by unfold pow64 at hc; norm_num; omega)]
  have h6 : readBE (pre ++ msgBytes u ++ rest) (pre.length + 51) 4 =
      .ok (bytesToNat (i32bytes u.exponent)) := by
    exact readBE_of_decomp _ (pre ++ beBytes 2 85 ++ [0] ++ u.feedId ++
        i64bytes u.priceValue ++ beBytes 8 u.confidence) (i32bytes u.exponent)
      (beBytes 8 u.publishTime ++ beBytes 8 u.publishTime ++
        i64bytes u.emaPrice ++ beBytes 8 u.emaConfidence ++ rest) _ _
      (by simp [msgBytes]) (by simp [hfeed]) (by simp)
  have h7 : readBE (pre ++ msgBytes u ++ rest) (pre.length + 55) 8 =
      .ok u.publishTime := by
    rw [readBE_of_decomp _ (pre ++ beBytes 2 85 ++ [0] ++ u.feedId ++
        i64bytes u.priceValue ++ beBytes 8 u.confidence ++ i32bytes u.exponent)
      (beBytes 8 u.publishTime)
      (beBytes 8 u.publishTime ++ i64bytes u.emaPrice ++
        beBytes 8 u.emaConfidence ++ rest) _ _
      (by simp [msgBytes]) (by simp [hfeed]) (by simp),
      bytesToNat_beBytes _ _ (by unfold pow64 at ht; norm_num; omega)]
  have h8 : readBE (pre ++ msgBytes u ++ rest) (pre.length + 63) 8 =
      .ok u.publishTime := by
    rw [readBE_of_decomp _ (pre ++ beBytes 2 85 ++ [0] ++ u.feedId ++
        i64bytes u.priceValue ++ beBytes 8 u.confidence ++ i32bytes u.exponent ++
        beBytes 8 u.publishTime) (beBytes 8 u.publishTime)
      (i64bytes u.emaPrice ++ beBytes 8 u.emaConfidence ++ rest) _ _
      (by simp [msgBytes]) (by simp [hfeed]) (by simp),
      bytesToNat_beBytes _ _ (by unfold pow64 at ht; norm_num; omega)]
  have h9 : readBE (pre ++ msgBytes u ++ rest) (pre.length + 71) 8 =
      .ok (bytesToNat (i64bytes u.emaPrice)) := by
    exact readBE_of_decomp _ (pre ++ beBytes 2 85 ++ [0] ++ u.feedId ++
        i64bytes u.priceValue ++ beBytes 8 u.confidence ++ i32bytes u.exponent ++
        beBytes 8 u.publishTime ++ beBytes 8 u.publishTime) (i64bytes u.emaPrice)
      (beBytes 8 u.emaConfidence ++ rest) _ _
      (by simp [msgBytes]) (by simp [hfeed]) (by simp)
  have h10 : readBE (pre ++ msgBytes u ++ rest) (pre.length + 79) 8 =
      .ok u.emaConfidence := by
    rw [readBE_of_decomp _ (pre ++ beBytes 2 85 ++ [0] ++ u.feedId ++
        i64bytes u.priceValue ++ beBytes 8 u.confidence ++ i32bytes u.exponent ++
        beBytes 8 u.publishTime ++ beBytes 8 u.publishTime ++ i64bytes u.emaPrice)
      (beBytes 8 u.emaConfidence) rest _ _
      (by simp [msgBytes]) (by simp [hfeed]) (by simp),
      bytesToNat_beBytes _ _ (by unfold pow64 at hec; norm_num; omega)]
  have hpr : toSigned64 (bytesToNat (i64bytes u.priceValue)) = u.priceValue :=
    toSigned64_i64bytes _ hp1 hp2
  have hex : toSigned32 (bytesToNat (i32bytes u.exponent)) = u.exponent :=
    toSigned32_i32bytes _ he1 he2
  have hem : toSigned64 (bytesToNat (i64bytes u.emaPrice)) = u.emaPrice :=
    toSigned64_i64bytes _ hep1 hep2
  simp only [parseSinglePriceUpdate, readI64, readI32, h1, h2, h3, h4, h5, h6,
    h7, h8, h9, h10, exceptMap_ok, exceptBind_ok, hpr, hex, hem, decodedOf]
  rfl

lemma parseLoop_flatten (S : List DecodedPriceUpdate) :
    ∀ pre rest : List Nat, (∀ u ∈ S, ValidRecord u) →
    parseLoop (pre ++ (S.map msgBytes).flatten ++ rest) S.length pre.length =
      .ok (S.map decodedOf) := by
  induction S with
  | nil => intro pre rest _; simp [parseLoop]
  | cons u S ih =>
    intro pre rest hval
    have hu : ValidRecord u := hval u (by simp)
    have hS : ∀ w ∈ S, ValidRecord w := fun w hw => hval w (by simp [hw])
    have hbuf : pre ++ ((u :: S).map msgBytes).flatten ++ rest =
        pre ++ msgBytes u ++ ((S.map msgBytes).flatten ++ rest) := by
      simp [List.append_assoc]
    rw [List.length_cons, hbuf, parseLoop, parseSingle_on_msg _ _ _ hu,
      exceptBind_ok]
    have hbuf2 : pre ++ msgBytes u ++ ((S.map msgBytes).flatten ++ rest) =
        (pre ++ msgBytes u) ++ (S.map msgBytes).flatten ++ rest := by
      simp [List.append_assoc]
    have hpre : pre.length + 87 = (pre ++ msgBytes u).length := by
      simp [msgBytes_length u hu.1]
    rw [hbuf2, hpre, ih (pre ++ msgBytes u) rest hS, exceptBind_ok]
    simp [List.map_cons]
    rfl

lemma parseAccHeader_header13v (v n : Nat) (body : List Nat) (hn : n ≤ 65535) :
    parseAccHeader (header13v v n ++ body) =
      .ok (⟨0x504e4155, 1, 0, 0, v, n⟩, 13) := by
  have h1 : readBE (header13v v n ++ body) 0 4 = .ok 0x504e4155 := by
    rw [readBE_of_decomp (header13v v n ++ body) [] [80, 78, 65, 85]
      ([0, 1, 0, 0, 0, 0, v] ++ (beBytes 2 n ++ body)) _ _
      (by simp [header13v]) (by simp) (by simp)]
    norm_num [bytesToNat]
  have h2 : readBE (header13v v n ++ body) 4 2 = .ok 1 := by
    rw [readBE_of_decomp (header13v v n ++ body) [80, 78, 65, 85] [0, 1]
      ([0, 0, 0, 0, v] ++ (beBytes 2 n ++ body)) _ _
      (by simp [header13v]) (by simp) (by simp)]
    norm_num [bytesToNat]
  have h3 : readBE (header13v v n ++ body) 6 2 = .ok 0 := by
    rw [readBE_of_decomp (header13v v n ++ body) [80, 78, 65, 85, 0, 1] [0, 0]
      ([0, 0, v] ++ (beBytes 2 n ++ body)) _ _
      (by simp [header13v]) (by simp) (by simp)]
    norm_num [bytesToNat]
  have h4 : readBE (header13v v n ++ body) 8 2 = .ok 0 := by
    rw [readBE_of_decomp (header13v v n ++ body) [80, 78, 65, 85, 0, 1, 0, 0]
      [0, 0] ([v] ++ (beBytes 2 n ++ body)) _ _
      (by simp [header13v]) (by simp) (by simp)]
    norm_num [bytesToNat]
  have h5 : readBE (header13v v n ++ body) 10 1 = .ok v := by
    rw [readBE_of_decomp (header13v v n ++ body)
      [80, 78, 65, 85, 0, 1, 0, 0, 0, 0] [v] (beBytes 2 n ++ body) _ _
      (by simp [header13v]) (by simp) (by simp)]
    simp
  have h6 : readBE (header13v v n ++ body) 11 2 = .ok n := by
    rw [readBE_of_decomp (header13v v n ++ body)
      [80, 78, 65, 85, 0, 1, 0, 0, 0, 0, v] (beBytes 2 n) body _ _
      (by simp [header13v]) (by simp) (by simp),
      bytesToNat_beBytes _ _ (by norm_num; omega)]
  simp only [parseAccHeader, h1, h2, h3, h4, h5, exceptBind_ok]
  norm_num
  rw [h6]
  rfl

lemma decode_header_msgs (S : List DecodedPriceUpdate) (v : Nat)
    (hval : ∀ u ∈ S, ValidRecord u) (hn : S.length ≤ 65535) :
    parsePythAccumulatorUpdate (header13v v S.length ++ (S.map msgBytes).flatten) =
      .ok (S.map decodedOf) := by
  rw [parsePythAccumulatorUpdate,
    parseAccHeader_header13v v S.length ((S.map msgBytes).flatten) hn,
    exceptBind_ok]
  have h13 : (13 : Nat) = (header13v v S.length).length := by
    simp [header13v]
  have hb : header13v v S.length ++ (S.map msgBytes).flatten =
      header13v v S.length ++ (S.map msgBytes).flatten ++ [] := by
    simp
  rw [hb, h13]
  exact parseLoop_flatten S (header13v v S.length) [] hval

lemma writeU16_ok (n : Nat) (h : n ≤ 65535) : writeU16 n = .ok (beBytes 2 n) := by
  rw [writeU16, if_pos h]

lemma writeU64_ok (n : Nat) (h : n < pow64) : writeU64 n = .ok (beBytes 8 n) := by
  rw [writeU64, if_pos h]

lemma writeI64_ok (x : Int) (h1 : -(pow63 : Int) ≤ x) (h2 : x < (pow63 : Int)) :
    writeI64 x = .ok (i64bytes x) := by
  rw [writeI64, if_pos ⟨h1, h2⟩, i64bytes]

lemma writeI32_ok (x : Int) (h1 : -(pow31 : Int) ≤ x) (h2 : x < (pow31 : Int)) :
    writeI32 x = .ok (i32bytes x) := by
  rw [writeI32, if_pos ⟨h1, h2⟩, i32bytes]

lemma encodeSingle_ok (u : DecodedPriceUpdate) (hval : ValidRecord u) :
    encodeSinglePriceUpdate u = .ok (msgBytes u) := by
  obtain ⟨hfeed, hp1, hp2, hc, he1, he2, ht, hep1, hep2, hec⟩ := hval
  have hlen : ([0] ++ u.feedId ++ i64bytes u.priceValue ++
      beBytes 8 u.confidence ++ i32bytes u.exponent ++
      beBytes 8 u.publishTime ++ beBytes 8 u.publishTime ++
      i64bytes u.emaPrice ++ beBytes 8 u.emaConfidence).length = 85 := by
    simp [hfeed]
  simp only [encodeSinglePriceUpdate, hfeed, if_pos, writeI64_ok _ hp1 hp2,
    writeU64_ok _ hc, writeI32_ok _ he1 he2, writeU64_ok _ ht,
    writeI64_ok _ hep1 hep2, writeU64_ok _ hec, exceptBind_ok, hlen,
    writeU16_ok 85 (by norm_num)]
  simp [msgBytes]
  rfl

lemma mapM_encodeSingle (S : List DecodedPriceUpdate)
    (hval : ∀ u ∈ S, ValidRecord u) :
    S.mapM encodeSinglePriceUpdate = .ok (S.map msgBytes) := by
  induction S with
  | nil => rfl
  | cons u S ih =>
    have hu : ValidRecord u := hval u (by simp)
    have hS : ∀ w ∈ S, ValidRecord w := fun w hw => hval w (by simp [hw])
    rw [List.mapM_cons, encodeSingle_ok u hu, ih hS]
    rfl

lemma createReal_ok (S : List DecodedPriceUpdate)
    (hval : ∀ u ∈ S, ValidRecord u) (hn : S.length ≤ 65535) :
    createRealAccumulatorUpdate S =
      .ok (header13v 0 S.length ++ (S.map msgBytes).flatten) := by
  rw [createRealAccumulatorUpdate, writeU16_ok _ hn, exceptBind_ok,
    mapM_encodeSingle S hval, exceptBind_ok]
  have hm : beBytes 4 0x504e4155 = [80, 78, 65, 85] := by decide
  have hz : beBytes 2 0 = [0, 0] := by decide
  rw [hm, hz]
  simp [header13v]
  rfl

lemma get?_eq_getD (l : List DecodedPriceUpdate) (i : Nat) (h : i < l.length) :
    l.get? i = some (l.getD i default) := by
  induction l generalizing i with
  | nil => simp at h
  | cons a l ih =>
    cases i with
    | zero => simp [List.getD]
    | succ i =>
      simp only [List.length_cons, Nat.succ_lt_succ_iff] at h
      simpa [List.getD] using ih i h

lemma filterMap_get?_eq_map (R : List DecodedPriceUpdate) (I : List Nat)
    (h : ∀ i ∈ I, i < R.length) :
    (I.filterMap fun i => R.get? i) = I.map fun i => R.getD i default := by
  induction I with
  | nil => simp
  | cons i I ih =>
    have hi : i < R.length := h i (by simp)
    have hI : ∀ j ∈ I, j < R.length := fun j hj => h j (by simp [hj])
    rw [List.filterMap_cons, get?_eq_getD R i hi, ih hI, List.map_cons]

lemma getD_mem_of_lt (l : List DecodedPriceUpdate) (i : Nat) (h : i < l.length) :
    l.getD i default ∈ l := by
  have := get?_eq_getD l i h
  exact List.get?_mem this

lemma reencode_ok (R : List DecodedPriceUpdate) (I : List Nat)
    (hvalR : ∀ u ∈ R, ValidRecord u) (hin : ∀ i ∈ I, i < R.length)
    (hlen : I.length ≤ 65535) :
    reencodeSelectedFeeds R I =
      .ok ⟨I.map (fun i => R.getD i default),
           header13v 0 I.length ++
             ((I.map fun i => R.getD i default).map msgBytes).flatten,
           R.length, I.length,
           (I.map fun i => R.getD i default).map (·.feedId)⟩ := by
  have hsel := filterMap_get?_eq_map R I hin
  have hvalsel : ∀ u ∈ I.map fun i => R.getD i default, ValidRecord u := by
    intro u hu
    obtain ⟨i, hiI, rfl⟩ := List.mem_map.mp hu
    exact hvalR _ (getD_mem_of_lt R i (hin i hiI))
  rw [reencodeSelectedFeeds, hsel]
  rw [if_neg (by simp)]
  rw [createReal_ok _ hvalsel (by simp [hlen]), exceptBind_ok]
  simp
  rfl

/-- A concrete valid record used by the evaluation theorems below. -/
def sampleRecord : DecodedPriceUpdate :=
  ⟨List.replicate 32 17, 5, 6, -3, 7, -2, 9, 0⟩

lemma filterMap_length_lt_of_none (f : Nat → Option DecodedPriceUpdate) :
    ∀ I : List Nat, (∃ i ∈ I, f i = none) → (I.filterMap f).length < I.length := by
  intro I
  induction I with
  | nil => rintro ⟨i, hi, _⟩; simp at hi
  | cons a I ih =>
    rintro ⟨i, hi, hnone⟩
    rcases List.mem_cons.mp hi with rfl | hiI
    · rw [List.filterMap_cons, hnone]
      have := List.length_filterMap_le f I
      simp
      omega
    · rw [List.filterMap_cons]
      cases hfa : f a with
      | none =>
        have := ih ⟨i, hiI, hnone⟩
        simp
        omega
      | some b =>
        have := ih ⟨i, hiI, hnone⟩
        simp
        omega

/-- Claim C9: re-encoding with an empty index list succeeds for every
record sequence and produces exactly the 13-byte header — magic
`0x504E4155`, version 1.0, trailing header size 0, update type 0 and a
zero count — with no message bytes after it. -/
theorem c9_reencode_empty (R : List DecodedPriceUpdate) :
    reencodeSelectedFeeds R [] =
      .ok ⟨[], [80, 78, 65, 85, 0, 1, 0, 0, 0, 0, 0, 0, 0], R.length, 0, []⟩ := by
  unfold reencodeSelectedFeeds
  simp only [List.filterMap_nil, List.length_nil, ne_eq, not_true_eq_false,
    if_false, List.map_nil]
  rfl

/-- Claim C6: when some selected index does not resolve to a record, the
encoder fails with the index-not-found error carrying the resolved and
requested counts (which disagree), and produces no encoded output. -/
theorem c6_index_not_found (R : List DecodedPriceUpdate) (I : List Nat)
    (h : ∃ i ∈ I, R.length ≤ i) :
    reencodeSelectedFeeds R I =
      .error (.indexNotFound (I.filterMap fun i => R.get? i).length I.length) ∧
    (I.filterMap fun i => R.get? i).length < I.length := by
  obtain ⟨i, hiI, hge⟩ := h
  have hnone : R.get? i = none := List.get?_eq_none.mpr hge
  have hlt := filterMap_length_lt_of_none (fun i => R.get? i) I ⟨i, hiI, hnone⟩
  constructor
  · rw [reencodeSelectedFeeds, if_pos (by omega)]
  · exact hlt

/-- Evaluation of `c6_index_not_found` at index 99 against a three-record
sequence. -/
theorem c6_index_not_found_witness :
    (∃ i ∈ [99], [sampleRecord, sampleRecord, sampleRecord].length ≤ i) ∧
    reencodeSelectedFeeds [sampleRecord, sampleRecord, sampleRecord] [99] =
      .error (.indexNotFound
        ([99].filterMap fun i => [sampleRecord, sampleRecord, sampleRecord].get? i).length
        [99].length) ∧
    ([99].filterMap fun i => [sampleRecord, sampleRecord, sampleRecord].get? i).length <
      [99].length :=
  ⟨⟨99, by decide, by decide⟩,
   c6_index_not_found [sampleRecord, sampleRecord, sampleRecord] [99]
     ⟨99, by decide, by decide⟩⟩

lemma hexValue_append_single (ds : List Nat) (d : Nat) :
    hexValue (ds ++ [d]) = hexValue ds * 16 + d := by
  simp [hexValue, List.foldl_append]

lemma hexDigitsAux_value : ∀ fuel n : Nat, n ≤ fuel →
    hexValue (hexDigitsAux fuel n) = n := by
  intro fuel
  induction fuel with
  | zero => intro n hn; interval_cases n; simp [hexDigitsAux, hexValue]
  | succ fuel ih =>
    intro n hn
    rw [hexDigitsAux]
    split
    · simp [hexValue]
      omega
    · rename_i hne
      rw [hexValue_append_single, ih (n / 16) (by omega)]
      omega

lemma natToHexDigits_value (n : Nat) : hexValue (natToHexDigits n) = n := by
  rw [natToHexDigits]
  split
  · simp [hexValue]
    omega
  · exact hexDigitsAux_value n n le_rfl

lemma hexDigitsAux_length_le : ∀ fuel n k : Nat, n ≤ fuel → n < 16 ^ k →
    (hexDigitsAux fuel n).length ≤ k := by
  intro fuel
  induction fuel with
  | zero => intro n k hn hk; interval_cases n; simp [hexDigitsAux]
  | succ fuel ih =>
    intro n k hn hk
    rw [hexDigitsAux]
    split
    · simp
    · rename_i hne
      cases k with
      | zero => simp at hk; omega
      | succ k =>
        have hdiv : n / 16 < 16 ^ k := by
          rw [Nat.div_lt_iff_lt_mul (by norm_num)]
          calc n < 16 ^ (k + 1) := hk
            _ = 16 ^ k * 16 := by ring
        have := ih (n / 16) k (by omega) hdiv
        simp
        omega

lemma natToHexDigits_length_le (n k : Nat) (h : n < 16 ^ k) (hk : 1 ≤ k) :
    (natToHexDigits n).length ≤ k := by
  rw [natToHexDigits]
  split
  · simpa
  · exact hexDigitsAux_length_le n n k le_rfl h

lemma padStart64_length (ds : List Nat) (h : ds.length ≤ 64) :
    (padStart64 ds).length = 64 := by
  simp [padStart64]
  omega

lemma hexValue_replicate_zero_append (m : Nat) (ds : List Nat) :
    hexValue (List.replicate m 0 ++ ds) = hexValue ds := by
  induction m with
  | zero => simp
  | succ m ih =>
    rw [List.replicate_succ, List.cons_append]
    simpa [hexValue] using ih

lemma hexValue_padStart64 (ds : List Nat) :
    hexValue (padStart64 ds) = hexValue ds :=
  hexValue_replicate_zero_append _ ds

/-- Claim C7: the calldata is the selector `0xa9852bcc`, a 32-byte
big-endian offset word of value 32, a 32-byte big-endian length word
holding the byte length of the payload, then the payload right-padded
with zero bytes to a multiple of 32 bytes (stated over hex digits: one
byte is two digits). -/
theorem c7_calldata_structure (d : List Nat) (h2 : d.length % 2 = 0)
    (hfit : d.length / 2 < 16 ^ 64) :
    createUpdatePriceFeedsCalldata d =
      selectorDigits ++ offsetWordDigits ++
        padStart64 (natToHexDigits (d.length / 2)) ++ d ++
        List.replicate (((32 - d.length / 2 % 32) % 32) * 2) 0 ∧
    hexValue selectorDigits = 0xa9852bcc ∧ selectorDigits.length = 8 ∧
    offsetWordDigits.length = 64 ∧ hexValue offsetWordDigits = 32 ∧
    (padStart64 (natToHexDigits (d.length / 2))).length = 64 ∧
    hexValue (padStart64 (natToHexDigits (d.length / 2))) = d.length / 2 ∧
    (d.length + ((32 - d.length / 2 % 32) % 32) * 2) % 64 = 0 := by
  refine ⟨rfl, by decide, by decide, by decide, by decide, ?_, ?_, ?_⟩
  · exact padStart64_length _ (natToHexDigits_length_le _ 64 hfit (by norm_num))
  · rw [hexValue_padStart64, natToHexDigits_value]
  · omega

/-- Evaluation of `c7_calldata_structure` on a one-byte payload. -/
theorem c7_calldata_structure_witness :
    (([1, 2] : List Nat).length % 2 = 0 ∧ ([1, 2] : List Nat).length / 2 < 16 ^ 64) ∧
    (createUpdatePriceFeedsCalldata [1, 2] =
      selectorDigits ++ offsetWordDigits ++
        padStart64 (natToHexDigits (([1, 2] : List Nat).length / 2)) ++ [1, 2] ++
        List.replicate (((32 - ([1, 2] : List Nat).length / 2 % 32) % 32) * 2) 0 ∧
    hexValue selectorDigits = 0xa9852bcc ∧ selectorDigits.length = 8 ∧
    offsetWordDigits.length = 64 ∧ hexValue offsetWordDigits = 32 ∧
    (padStart64 (natToHexDigits (([1, 2] : List Nat).length / 2))).length = 64 ∧
    hexValue (padStart64 (natToHexDigits (([1, 2] : List Nat).length / 2))) =
      ([1, 2] : List Nat).length / 2 ∧
    (([1, 2] : List Nat).length +
      ((32 - ([1, 2] : List Nat).length / 2 % 32) % 32) * 2) % 64 = 0) :=
  ⟨⟨by decide, by decide⟩, c7_calldata_structure [1, 2] (by decide) (by decide)⟩
/-- Field-wise agreement of a decoded record with a source record on the
fields the round-trip claim compares. -/
def fieldsMatch (d r : DecodedPriceUpdate) : Prop :=
  d.feedId = r.feedId ∧ d.priceValue = r.priceValue ∧
  d.confidence = r.confidence ∧ d.exponent = r.exponent ∧
  d.publishTime = r.publishTime ∧ d.emaPrice = r.emaPrice ∧
  d.emaConfidence = r.emaConfidence

/-- The round-trip property as the specification states it: valid records,
distinct in-range indices, no bound on how many. -/
def roundTripClaim : Prop :=
  ∀ (R : List DecodedPriceUpdate) (I : List Nat),
    (∀ u ∈ R, ValidRecord u) → (∀ i ∈ I, i < R.length) → I.Nodup →
    ∃ res ds, reencodeSelectedFeeds R I = .ok res ∧
      parsePythAccumulatorUpdate res.binaryData = .ok ds ∧
      ds.length = I.length ∧
      ∀ k, k < I.length →
        fieldsMatch (ds.getD k default) (R.getD (I.getD k 0) default)

lemma getD_lt_irrel {α : Type} (l : List α) (k : Nat) (h : k < l.length)
    (d d' : α) : l.getD k d = l.getD k d' := by
  induction l generalizing k with
  | nil => simp at h
  | cons a l ih =>
    cases k with
    | zero => simp [List.getD]
    | succ k =>
      simp only [List.length_cons, Nat.succ_lt_succ_iff] at h
      simpa [List.getD] using ih k h

lemma getD_map_lt {α β : Type} (f : α → β) (l : List α) (k : Nat)
    (h : k < l.length) (da : α) (db : β) :
    (l.map f).getD k db = f (l.getD k da) := by
  induction l generalizing k with
  | nil => simp at h
  | cons a l ih =>
    cases k with
    | zero => simp [List.getD]
    | succ k =>
      simp only [List.length_cons, Nat.succ_lt_succ_iff] at h
      simpa [List.getD] using ih k h

/-- Claim C1 (amended with the 2-byte count bound): for valid records and
distinct in-range indices, when at most 65535 indices are selected,
re-encoding succeeds and decoding the produced buffer yields one record
per selected index, in selection order, agreeing with the source record
on feed id, price, confidence, exponent, publish time, EMA price and EMA
confidence. -/
theorem c1_round_trip (R : List DecodedPriceUpdate) (I : List Nat)
    (hval : ∀ u ∈ R, ValidRecord u) (hin : ∀ i ∈ I, i < R.length)
    (hnodup : I.Nodup) (hlen : I.length ≤ 65535) :
    ∃ res ds, reencodeSelectedFeeds R I = .ok res ∧
      parsePythAccumulatorUpdate res.binaryData = .ok ds ∧
      ds.length = I.length ∧
      ∀ k, k < I.length →
        fieldsMatch (ds.getD k default) (R.getD (I.getD k 0) default) := by
  have hvalsel : ∀ u ∈ I.map fun i => R.getD i default, ValidRecord u := by
    intro u hu
    obtain ⟨i, hiI, rfl⟩ := List.mem_map.mp hu
    exact hval _ (getD_mem_of_lt R i (hin i hiI))
  refine ⟨_, (I.map fun i => R.getD i default).map decodedOf,
    reencode_ok R I hval hin hlen, ?_, ?_, ?_⟩
  · show parsePythAccumulatorUpdate
      (header13v 0 I.length ++
        ((I.map fun i => R.getD i default).map msgBytes).flatten) = _
    have hlen2 : I.length = (I.map fun i => R.getD i default).length := by simp
    rw [hlen2]
    exact decode_header_msgs _ 0 hvalsel (by simpa using hlen)
  · simp
  · intro k hk
    rw [getD_map_lt decodedOf _ k (by simpa using hk) default default,
      getD_map_lt (fun i => R.getD i default) I k (by simpa using hk) 0 default]
    simp [fieldsMatch, decodedOf]

/-- The record sequence of the counterexample to the unbounded round-trip
claim: 65536 copies of a valid record. -/
def bigR : List DecodedPriceUpdate := List.replicate 65536 sampleRecord

/-- The index list of the counterexample: all 65536 indices, distinct and
in range. -/
def bigI : List Nat := List.range 65536

lemma get?_replicate_lt (r : DecodedPriceUpdate) :
    ∀ n m : Nat, m < n → (List.replicate n r).get? m = some r := by
  intro n
  induction n with
  | zero => intro m h; omega
  | succ n ih =>
    intro m h
    cases m with
    | zero => simp [List.replicate_succ]
    | succ m => simpa [List.replicate_succ] using ih m (by omega)

lemma filterMap_range_replicate (r : DecodedPriceUpdate) :
    ∀ k n : Nat, k ≤ n →
    ((List.range k).filterMap fun i => (List.replicate n r).get? i) =
      List.replicate k r := by
  intro k
  induction k with
  | zero => intro n _; simp
  | succ k ih =>
    intro n h
    rw [List.range_succ, List.filterMap_append, ih n (by omega)]
    have hk : (List.replicate n r).get? k = some r := get?_replicate_lt r n k (by omega)
    rw [List.get?_eq_getElem?] at hk
    simp [List.filterMap_cons, hk, List.replicate_succ']

lemma reencode_big_fails : reencodeSelectedFeeds bigR bigI = .error .rangeError := by
  rw [reencodeSelectedFeeds]
  rw [show bigI.filterMap (fun i => bigR.get? i) = List.replicate 65536 sampleRecord
    from filterMap_range_replicate sampleRecord 65536 65536 le_rfl]
  have hl : (List.replicate 65536 sampleRecord).length = bigI.length := by
    rw [List.length_replicate, bigI, List.length_range]
  rw [if_neg (not_not_intro hl)]
  rw [createRealAccumulatorUpdate]
  rw [show writeU16 (List.replicate 65536 sampleRecord).length = .error .rangeError
    from by rw [writeU16, if_neg (by rw [List.length_replicate]; omega)]]
  rfl

/-- Counterexample to claim C1 as stated: with 65536 valid records and the
65536 distinct in-range indices `0, ..., 65535`, re-encoding fails (the
2-byte count write throws a range error), so the unbounded round-trip
property is false. -/
theorem c1_counterexample : ¬ roundTripClaim := by
  intro h
  obtain ⟨res, ds, hres, _⟩ := h bigR bigI
    (fun u hu => by
      rw [bigR] at hu
      rw [List.eq_of_mem_replicate hu]
      decide)
    (fun i hi => by
      rw [bigI] at hi
      rw [bigR, List.length_replicate]
      exact List.mem_range.mp hi)
    (by rw [bigI]; exact List.nodup_range 65536)
  rw [reencode_big_fails] at hres
  exact Except.noConfusion hres

/-- Evaluation of `c1_round_trip` on a single record selected once. -/
theorem c1_round_trip_witness :
    ((∀ u ∈ [sampleRecord], ValidRecord u) ∧
     (∀ i ∈ ([0] : List Nat), i < [sampleRecord].length) ∧
     ([0] : List Nat).Nodup ∧ ([0] : List Nat).length ≤ 65535) ∧
    (∃ res ds, reencodeSelectedFeeds [sampleRecord] [0] = .ok res ∧
      parsePythAccumulatorUpdate res.binaryData = .ok ds ∧
      ds.length = ([0] : List Nat).length ∧
      ∀ k, k < ([0] : List Nat).length →
        fieldsMatch (ds.getD k default)
          ([sampleRecord].getD (([0] : List Nat).getD k 0) default)) :=
  ⟨⟨by decide, by decide, by decide, by decide⟩,
   c1_round_trip [sampleRecord] [0] (by decide) (by decide) (by decide) (by decide)⟩

lemma parseSingle_spec (buffer : List Nat) (offset : Nat) :
    (∃ u, parseSinglePriceUpdate buffer offset = .ok (u, offset + 87) ∧
      offset + 87 ≤ buffer.length) ∨
    parseSinglePriceUpdate buffer offset = .error .outOfRange := by
  by_cases hb : offset + 87 ≤ buffer.length
  · left
    have r1 : readBE buffer offset 2 =
        .ok (bytesToNat (bufSlice buffer offset 2)) := by
      rw [readBE, if_pos (by omega)]
    have r2 : readBE buffer (offset + 2) 1 =
        .ok (bytesToNat (bufSlice buffer (offset + 2) 1)) := by
      rw [readBE, if_pos (by omega)]
    have r3 : readBE buffer (offset + 35) 8 =
        .ok (bytesToNat (bufSlice buffer (offset + 35) 8)) := by
      rw [readBE, if_pos (by omega)]
    have r4 : readBE buffer (offset + 43) 8 =
        .ok (bytesToNat (bufSlice buffer (offset + 43) 8)) := by
      rw [readBE, if_pos (by omega)]
    have r5 : readBE buffer (offset + 51) 4 =
        .ok (bytesToNat (bufSlice buffer (offset + 51) 4)) := by
      rw [readBE, if_pos (by omega)]
    have r6 : readBE buffer (offset + 55) 8 =
        .ok (bytesToNat (bufSlice buffer (offset + 55) 8)) := by
      rw [readBE, if_pos (by omega)]
    have r7 : readBE buffer (offset + 63) 8 =
        .ok (bytesToNat (bufSlice buffer (offset + 63) 8)) := by
      rw [readBE, if_pos (by omega)]
    have r8 : readBE buffer (offset + 71) 8 =
        .ok (bytesToNat (bufSlice buffer (offset + 71) 8)) := by
      rw [readBE, if_pos (by omega)]
    have r9 : readBE buffer (offset + 79) 8 =
        .ok (bytesToNat (bufSlice buffer (offset + 79) 8)) := by
      rw [readBE, if_pos (by omega)]
    refine ⟨⟨bufSlice buffer (offset + 3) 32,
      toSigned64 (bytesToNat (bufSlice buffer (offset + 35) 8)),
      bytesToNat (bufSlice buffer (offset + 43) 8),
      toSigned32 (bytesToNat (bufSlice buffer (offset + 51) 4)),
      bytesToNat (bufSlice buffer (offset + 55) 8),
      toSigned64 (bytesToNat (bufSlice buffer (offset + 71) 8)),
      bytesToNat (bufSlice buffer (offset + 79) 8), 0⟩, ?_, hb⟩
    simp only [parseSinglePriceUpdate, readI64, readI32, r1, r2, r3, r4, r5,
      r6, r7, r8, r9, exceptMap_ok, exceptBind_ok]
    rfl
  · right
    by_cases h1 : offset + 2 ≤ buffer.length
    · by_cases h2 : offset + 2 + 1 ≤ buffer.length
      · by_cases h3 : offset + 35 + 8 ≤ buffer.length
        · by_cases h4 : offset + 43 + 8 ≤ buffer.length
          · by_cases h5 : offset + 51 + 4 ≤ buffer.length
            · by_cases h6 : offset + 55 + 8 ≤ buffer.length
              · by_cases h7 : offset + 63 + 8 ≤ buffer.length
                · by_cases h8 : offset + 71 + 8 ≤ buffer.length
                  · have h9 : ¬ (offset + 79 + 8 ≤ buffer.length) := by omega
                    simp only [parseSinglePriceUpdate, readI64, readI32, readBE,
                      h1, h2, h3, h4, h5, h6, h7, h8, h9, if_true, if_false,
                      exceptMap_ok, exceptMap_error, exceptBind_ok,
                      exceptBind_error]
                  · simp only [parseSinglePriceUpdate, readI64, readI32, readBE,
                      h1, h2, h3, h4, h5, h6, h7, h8, if_true, if_false,
                      exceptMap_ok, exceptMap_error, exceptBind_ok,
                      exceptBind_error]
                · simp only [parseSinglePriceUpdate, readI64, readI32, readBE,
                    h1, h2, h3, h4, h5, h6, h7, if_true, if_false,
                    exceptMap_ok, exceptMap_error, exceptBind_ok,
                    exceptBind_error]
              · simp only [parseSinglePriceUpdate, readI64, readI32, readBE,
                  h1, h2, h3, h4, h5, h6, if_true, if_false, exceptMap_ok,
                  exceptMap_error, exceptBind_ok, exceptBind_error]
            · simp only [parseSinglePriceUpdate, readI64, readI32, readBE,
                h1, h2, h3, h4, h5, if_true, if_false, exceptMap_ok,
                exceptMap_error, exceptBind_ok, exceptBind_error]
          · simp only [parseSinglePriceUpdate, readI64, readI32, readBE,
              h1, h2, h3, h4, if_true, if_false, exceptMap_ok,
              exceptMap_error, exceptBind_ok, exceptBind_error]
        · simp only [parseSinglePriceUpdate, readI64, readI32, readBE,
            h1, h2, h3, if_true, if_false, exceptMap_ok, exceptMap_error,
            exceptBind_ok, exceptBind_error]
      · simp only [parseSinglePriceUpdate, readI64, readI32, readBE,
          h1, h2, if_true, if_false, exceptMap_ok, exceptMap_error,
          exceptBind_ok, exceptBind_error]
    · simp only [parseSinglePriceUpdate, readI64, readI32, readBE,
        h1, if_true, if_false, exceptMap_ok, exceptMap_error,
        exceptBind_ok, exceptBind_error]

/-- The cursor-advancement property as the specification states it: after
a message parse the cursor stands at the declared length `L` past the
length field. -/
def declaredLengthAdvanceClaim : Prop :=
  ∀ (buffer : List Nat) (offset : Nat) (u : DecodedPriceUpdate) (next : Nat),
    parseSinglePriceUpdate buffer offset = .ok (u, next) →
    ∃ L, readBE buffer offset 2 = .ok L ∧ next = offset + 2 + L

/-- A message declaring length 86 — one trailing byte more than the 85
bytes of fields — followed by that extra byte. -/
def c2buf : List Nat :=
  [0, 86] ++ [0] ++ List.replicate 32 0 ++ List.replicate 52 0 ++ [0]

/-- The record the decoder reads from `c2buf` at offset 0. -/
def c2rec : DecodedPriceUpdate := ⟨List.replicate 32 0, 0, 0, 0, 0, 0, 0, 0⟩

/-- Counterexample to claim C2 as stated: on a message with declared
length 86, the decoder leaves the cursor at offset 87 (the sum of the
field widths), not at `2 + 86 = 88` as declared-length advancement would
require. -/
theorem c2_counterexample : ¬ declaredLengthAdvanceClaim := by
  intro h
  obtain ⟨L, hL, hnext⟩ := h c2buf 0 c2rec 87 (by decide)
  have h86 : readBE c2buf 0 2 = .ok 86 := by decide
  rw [h86] at hL
  injection hL with hL
  omega

/-- Claim C2 (amended): the decoder advances the cursor by the fixed sum
of the field widths — 87 bytes including the 2-byte length field — for
every successfully parsed message, ignoring the declared length. -/
theorem c2_fixed_advance (buffer : List Nat) (offset : Nat)
    (u : DecodedPriceUpdate) (next : Nat)
    (h : parseSinglePriceUpdate buffer offset = .ok (u, next)) :
    next = offset + 87 := by
  rcases parseSingle_spec buffer offset with ⟨u', hok, _⟩ | herr
  · rw [hok] at h
    injection h with h
    simpa using (congrArg Prod.snd h).symm
  · rw [herr] at h
    exact Except.noConfusion h

/-- A complete 87-byte message with declared length 85, used to evaluate
`c2_fixed_advance`. -/
def c2okbuf : List Nat := [0, 85] ++ List.replicate 85 0

/-- Evaluation of `c2_fixed_advance` at offset 0 of `c2okbuf`. -/
theorem c2_fixed_advance_witness :
    parseSinglePriceUpdate c2okbuf 0 = .ok (c2rec, 87) ∧ (87 : Nat) = 0 + 87 :=
  ⟨by decide, c2_fixed_advance c2okbuf 0 c2rec 87 (by decide)⟩

lemma flatten_msgBytes_length (S : List DecodedPriceUpdate)
    (hval : ∀ u ∈ S, ValidRecord u) :
    (S.map msgBytes).flatten.length = 87 * S.length := by
  induction S with
  | nil => simp
  | cons u S ih =>
    have hu : ValidRecord u := hval u (by simp)
    have hS : ∀ w ∈ S, ValidRecord w := fun w hw => hval w (by simp [hw])
    simp [msgBytes_length u hu.1, ih hS]
    ring

lemma parseLoop_truncated (buffer : List Nat) :
    ∀ n off : Nat, 0 < n → buffer.length < off + 87 * n →
    parseLoop buffer n off = .error .outOfRange := by
  intro n
  induction n with
  | zero => intro off h; omega
  | succ n ih =>
    intro off _ hlt
    rcases parseSingle_spec buffer off with ⟨u, hok, hle⟩ | herr
    · have hn : 0 < n := by
        by_contra hn0
        have : n = 0 := by omega
        subst this
        omega
      rw [parseLoop, hok, exceptBind_ok,
        ih (off + 87) hn (by omega), exceptBind_error]
    · rw [parseLoop, herr, exceptBind_error]

/-- Claim C5: a buffer cut off strictly inside the message area (at least
the 13-byte header survives) makes the whole decode fail with the
out-of-range read error — the model of the thrown `RangeError` the
specification calls `Truncated` — and returns no records at all. -/
theorem c5_truncation (S : List DecodedPriceUpdate)
    (hval : ∀ u ∈ S, ValidRecord u) (hpos : 0 < S.length)
    (hle : S.length ≤ 65535) (buf : List Nat)
    (hbuf : createRealAccumulatorUpdate S = .ok buf) (len : Nat)
    (h13 : 13 ≤ len) (hlt : len < buf.length) :
    parsePythAccumulatorUpdate (buf.take len) = .error .outOfRange := by
  rw [createReal_ok S hval hle] at hbuf
  injection hbuf with hbuf
  subst hbuf
  have hhlen : (header13v 0 S.length).length = 13 := by simp [header13v]
  have hblen : (S.map msgBytes).flatten.length = 87 * S.length :=
    flatten_msgBytes_length S hval
  rw [List.length_append, hhlen, hblen] at hlt
  have htake : (header13v 0 S.length ++ (S.map msgBytes).flatten).take len =
      header13v 0 S.length ++ (S.map msgBytes).flatten.take (len - 13) := by
    rw [List.take_append_eq_append_take, hhlen,
      List.take_of_length_le (by omega : (header13v 0 S.length).length ≤ len)]
  rw [htake, parsePythAccumulatorUpdate,
    parseAccHeader_header13v 0 S.length _ hle, exceptBind_ok]
  apply parseLoop_truncated _ S.length 13 hpos
  rw [List.length_append, hhlen, List.length_take, hblen]
  omega

/-- The buffer `createRealAccumulatorUpdate` produces for the single
sample record. -/
def c5buf : List Nat := header13v 0 1 ++ msgBytes sampleRecord

/-- Evaluation of `c5_truncation`: the sample one-record buffer cut to 50
bytes fails to decode. -/
theorem c5_truncation_witness :
    ((∀ u ∈ [sampleRecord], ValidRecord u) ∧
     0 < [sampleRecord].length ∧ [sampleRecord].length ≤ 65535 ∧
     createRealAccumulatorUpdate [sampleRecord] = .ok c5buf ∧
     13 ≤ 50 ∧ 50 < c5buf.length) ∧
    parsePythAccumulatorUpdate (c5buf.take 50) = .error .outOfRange :=
  ⟨⟨by decide, by decide, by decide, by decide, by decide, by decide⟩,
   c5_truncation [sampleRecord] (by decide) (by decide) (by decide) c5buf
     (by decide) 50 (by decide) (by decide)⟩

/-- The header-offset property as the specification states it: the update
type the decoder interprets is the byte at offset `10 + T`. -/
def updateTypeOffsetClaim : Prop :=
  ∀ (buffer : List Nat) (h : AccHeader) (off : Nat),
    parseAccHeader buffer = .ok (h, off) →
    h.updateType = buffer.getD (10 + h.trailingHeaderSize) 0

/-- A header with trailing header size 1: byte 10 is 0, the trailing
header byte at index 11 is 9, and the count at `11 + T = 12` is 0. -/
def c3buf : List Nat := [80, 78, 65, 85, 0, 1, 0, 0, 0, 1, 0, 9, 0, 0]

/-- Counterexample to claim C3 as stated: with `T = 1` the decoder reads
the update type at offset 10 (value 0), not at offset `10 + T = 11`
(value 9). -/
theorem c3_counterexample : ¬ updateTypeOffsetClaim := by
  intro h
  have := h c3buf ⟨0x504e4155, 1, 0, 1, 0, 0⟩ 14 (by decide)
  exact absurd this (by decide)

/-- Claim C3 (amended): the decoder reads the update-type byte at offset
10, before skipping the `T` trailing-header bytes, and reads the message
count at offset `11 + T`; the first message starts at `13 + T`. -/
theorem c3_header_offsets (buffer : List Nat) (h : AccHeader) (off : Nat)
    (hok : parseAccHeader buffer = .ok (h, off)) :
    readBE buffer 10 1 = .ok h.updateType ∧
    readBE buffer (11 + h.trailingHeaderSize) 2 = .ok h.numUpdates ∧
    off = 13 + h.trailingHeaderSize := by
  rcases hm : readBE buffer 0 4 with e | magic
  · simp only [parseAccHeader, hm, exceptBind_error] at hok
    exact Except.noConfusion hok
  · simp only [parseAccHeader, hm, exceptBind_ok] at hok
    by_cases hmg : magic = 0x504e4155
    · simp only [hmg, if_true, if_pos] at hok
      rcases h1 : readBE buffer 4 2 with e | major
      · simp only [h1, exceptBind_error] at hok
        exact Except.noConfusion hok
      · simp only [h1, exceptBind_ok] at hok
        rcases h2 : readBE buffer 6 2 with e | minor
        · simp only [h2, exceptBind_error] at hok
          exact Except.noConfusion hok
        · simp only [h2, exceptBind_ok] at hok
          rcases h3 : readBE buffer 8 2 with e | T
          · simp only [h3, exceptBind_error] at hok
            exact Except.noConfusion hok
          · simp only [h3, exceptBind_ok] at hok
            rcases h4 : readBE buffer 10 1 with e | ut
            · simp only [h4, exceptBind_error] at hok
              exact Except.noConfusion hok
            · simp only [h4, exceptBind_ok] at hok
              rcases h5 : readBE buffer (11 + T) 2 with e | nu
              · simp only [h5, exceptBind_error] at hok
                exact Except.noConfusion hok
              · simp only [h5, exceptBind_ok] at hok
                have hok' := Except.ok.inj hok
                rw [Prod.mk.injEq] at hok'
                obtain ⟨hh, hoff⟩ := hok'
                subst hh
                exact ⟨rfl, h5, hoff.symm⟩
    · simp only [if_neg hmg] at hok
      exact Except.noConfusion hok

/-- Evaluation of `c3_header_offsets` on a header with `T = 0`. -/
theorem c3_header_offsets_witness :
    parseAccHeader [80, 78, 65, 85, 0, 1, 0, 0, 0, 0, 0, 0, 0] =
      .ok (⟨0x504e4155, 1, 0, 0, 0, 0⟩, 13) ∧
    (readBE [80, 78, 65, 85, 0, 1, 0, 0, 0, 0, 0, 0, 0] 10 1 = .ok 0 ∧
     readBE [80, 78, 65, 85, 0, 1, 0, 0, 0, 0, 0, 0, 0] 11 2 = .ok 0 ∧
     (13 : Nat) = 13 + 0) :=
  ⟨by decide,
   c3_header_offsets [80, 78, 65, 85, 0, 1, 0, 0, 0, 0, 0, 0, 0]
     ⟨0x504e4155, 1, 0, 0, 0, 0⟩ 13 (by decide)⟩

/-- The update-type rejection property as the specification states it:
decode never succeeds on a buffer whose update-type byte is not 0. -/
def updateTypeRejectionClaim : Prop :=
  ∀ (buffer : List Nat) (h : AccHeader) (off : Nat),
    parseAccHeader buffer = .ok (h, off) → h.updateType ≠ 0 →
    ∀ us, parsePythAccumulatorUpdate buffer ≠ .ok us

/-- A well-formed empty update whose update-type byte is 7. -/
def c4buf : List Nat := [80, 78, 65, 85, 0, 1, 0, 0, 0, 0, 7, 0, 0]

/-- Counterexample to claim C4 as stated: the buffer with update type 7
decodes successfully (to the empty record list); no unsupported-type
error exists in the decoder. -/
theorem c4_counterexample : ¬ updateTypeRejectionClaim := by
  intro h
  exact h c4buf ⟨0x504e4155, 1, 0, 0, 7, 0⟩ 13 (by decide) (by decide) []
    (by decide)

/-- Claim C4 (amended): the decoder does not inspect the update-type
byte — a well-formed accumulator buffer decodes to the same records
whatever value that byte holds. -/
theorem c4_update_type_ignored (S : List DecodedPriceUpdate) (v : Nat)
    (hval : ∀ u ∈ S, ValidRecord u) (hlen : S.length ≤ 65535)
    (hv : v < 256) :
    parsePythAccumulatorUpdate
      (header13v v S.length ++ (S.map msgBytes).flatten) =
      .ok (S.map decodedOf) :=
  decode_header_msgs S v hval hlen

/-- Evaluation of `c4_update_type_ignored` with update-type byte 9 over
one record. -/
theorem c4_update_type_ignored_witness :
    ((∀ u ∈ [sampleRecord], ValidRecord u) ∧
     [sampleRecord].length ≤ 65535 ∧ (9 : Nat) < 256) ∧
    parsePythAccumulatorUpdate
      (header13v 9 [sampleRecord].length ++
        ([sampleRecord].map msgBytes).flatten) =
      .ok ([sampleRecord].map decodedOf) :=
  ⟨⟨by decide, by decide, by decide⟩,
   c4_update_type_ignored [sampleRecord] 9 (by decide) (by decide) (by decide)⟩

/-- The validation property as the specification states it: valid exactly
when every record has a `0x`-prefixed 64-hex-character feed id, bigint
price and confidence, and numeric exponent and publish time. -/
def validationClaim : Prop :=
  ∀ us : List RawUpdate,
    (validateDecodedData us).1 = true ↔ ∀ u ∈ us, specShapeOk u = true

/-- A record whose feed id is `0x12` — prefixed but only 4 characters. -/
def c8shortId : RawUpdate :=
  ⟨['0', 'x', '1', '2'], .jbigint 0, .jbigint 0, .jnumber 0, .jnumber 0⟩

/-- Counterexample to claim C8 as stated: the validator accepts a feed id
of the wrong length, because the source only checks the `0x` prefix and
truthiness, never the 64-hex-character shape. -/
theorem c8_counterexample : ¬ validationClaim := by
  intro h
  have := (h [c8shortId]).mp (by decide) c8shortId (by decide)
  exact absurd this (by decide)

lemma recordValErrs_eq_nil_iff (k : Nat) (u : RawUpdate) :
    recordValErrs k u = [] ↔ jsShapeOk u = true := by
  cases h1 : (u.feedId.isEmpty || !startsWith0x u.feedId) <;>
    cases h2 : isBigintV u.priceValue <;>
    cases h3 : isBigintV u.confidence <;>
    cases h4 : isNumberV u.exponent <;>
    cases h5 : isNumberV u.publishTime <;>
    simp_all [recordValErrs, jsShapeOk] <;> tauto

lemma valErrsFrom_eq_nil_iff :
    ∀ (us : List RawUpdate) (m : Nat),
    valErrsFrom m us = [] ↔ ∀ u ∈ us, jsShapeOk u = true := by
  intro us
  induction us with
  | nil => intro m; simp [valErrsFrom]
  | cons u us ih =>
    intro m
    simp [valErrsFrom, List.append_eq_nil, recordValErrs_eq_nil_iff, ih (m + 1)]

lemma mem_recordValErrs_exists (m : Nat) (u : RawUpdate)
    (h : jsShapeOk u = false) : ∃ e, (m, e) ∈ recordValErrs m u := by
  cases h1 : (u.feedId.isEmpty || !startsWith0x u.feedId) <;>
    cases h2 : isBigintV u.priceValue <;>
    cases h3 : isBigintV u.confidence <;>
    cases h4 : isNumberV u.exponent <;>
    cases h5 : isNumberV u.publishTime <;>
    simp_all [recordValErrs, jsShapeOk]

lemma get?_mem_valErrsFrom :
    ∀ (us : List RawUpdate) (m k : Nat) (u : RawUpdate),
    us.get? k = some u → jsShapeOk u = false →
    ∃ e, (m + k, e) ∈ valErrsFrom m us := by
  intro us
  induction us with
  | nil => intro m k u hget; simp at hget
  | cons a us ih =>
    intro m k u hget hbad
    cases k with
    | zero =>
      simp only [List.get?_cons_zero, Option.some.injEq] at hget
      subst hget
      obtain ⟨e, he⟩ := mem_recordValErrs_exists m a hbad
      exact ⟨e, by simpa [valErrsFrom] using Or.inl he⟩
    | succ k =>
      simp only [List.get?_cons_succ] at hget
      obtain ⟨e, he⟩ := ih (m + 1) k u hget hbad
      refine ⟨e, ?_⟩
      have : m + (k + 1) = m + 1 + k := by omega
      rw [this]
      simpa [valErrsFrom] using Or.inr he

/-- Claim C8 (amended): the validator is valid exactly when every record
passes the checks the source makes — feed id nonempty and starting with
`0x` (length and hex content are not checked), price and confidence of
bigint kind, exponent and publish time of number kind — and it reports at
least one indexed error for every record failing those checks. -/
theorem c8_validate_shape :
    (∀ us : List RawUpdate,
      ((validateDecodedData us).1 = true ↔ ∀ u ∈ us, jsShapeOk u = true)) ∧
    (∀ (us : List RawUpdate) (k : Nat) (u : RawUpdate),
      us.get? k = some u → jsShapeOk u = false →
      ∃ e, (k, e) ∈ (validateDecodedData us).2) := by
  constructor
  · intro us
    rw [validateDecodedData]
    simp only [List.isEmpty_iff]
    exact valErrsFrom_eq_nil_iff us 0
  · intro us k u hget hbad
    obtain ⟨e, he⟩ := get?_mem_valErrsFrom us 0 k u hget hbad
    exact ⟨e, by simpa [validateDecodedData] using he⟩

/-- A record failing the shape checks: empty feed id and a price of
number kind. -/
def c8badShape : RawUpdate := ⟨[], .jnumber 0, .jbigint 0, .jnumber 0, .jnumber 0⟩

/-- Evaluation of `c8_validate_shape` on the failing record. -/
theorem c8_validate_shape_witness :
    ([c8badShape].get? 0 = some c8badShape ∧ jsShapeOk c8badShape = false) ∧
    ∃ e, (0, e) ∈ (validateDecodedData [c8badShape]).2 :=
  ⟨⟨by decide, by decide⟩,
   c8_validate_shape.2 [c8badShape] 0 c8badShape (by decide) (by decide)⟩

/-- The duplicate-selection property as the specification claim states
it: whenever every index resolves and the list has duplicates, re-encode
succeeds, the count field holds the index-list length and one message is
emitted per occurrence, in order. -/
def duplicateIndexClaim : Prop :=
  ∀ (R : List DecodedPriceUpdate) (I : List Nat),
    (∀ i ∈ I, i < R.length) → ¬ I.Nodup →
    ∃ res, reencodeSelectedFeeds R I = .ok res ∧
      readBE res.binaryData 11 2 = .ok I.length ∧
      res.binaryData = header13v 0 I.length ++
        (I.map fun i => msgBytes (R.getD i default)).flatten

/-- A record the encoder rejects: its feed id is empty, not 32 bytes. -/
def badFeedRecord : DecodedPriceUpdate := ⟨[], 0, 0, 0, 0, 0, 0, 0⟩

/-- Counterexample to claim C10 as stated: all indices of `[0, 0]`
resolve against the one-record sequence and the list has duplicates, yet
re-encoding fails, because the record itself is rejected (its feed id is
not 32 bytes); success needs valid records. -/
theorem c10_counterexample : ¬ duplicateIndexClaim := by
  intro h
  obtain ⟨res, hres, _⟩ := h [badFeedRecord] [0, 0] (by decide) (by decide)
  rw [show reencodeSelectedFeeds [badFeedRecord] [0, 0] =
      .error (.invalidFeedIdLength 0) from by decide] at hres
  exact Except.noConfusion hres

/-- Claim C10 (amended): for valid records, with every index resolving
and at most 65535 selected, re-encoding succeeds even when the index list
has duplicates: the count field holds the full index-list length and the
message of a duplicated record appears once per occurrence, in list
order. -/
theorem c10_duplicates_encoded (R : List DecodedPriceUpdate) (I : List Nat)
    (hval : ∀ u ∈ R, ValidRecord u) (hin : ∀ i ∈ I, i < R.length)
    (hdup : ¬ I.Nodup) (hlen : I.length ≤ 65535) :
    ∃ res, reencodeSelectedFeeds R I = .ok res ∧
      readBE res.binaryData 11 2 = .ok I.length ∧
      res.binaryData = header13v 0 I.length ++
        (I.map fun i => msgBytes (R.getD i default)).flatten := by
  refine ⟨_, reencode_ok R I hval hin hlen, ?_, ?_⟩
  · show readBE (header13v 0 I.length ++
      ((I.map fun i => R.getD i default).map msgBytes).flatten) 11 2 = _
    rw [readBE_of_decomp _ [80, 78, 65, 85, 0, 1, 0, 0, 0, 0, 0]
      (beBytes 2 I.length)
      ((I.map fun i => R.getD i default).map msgBytes).flatten _ _
      (by simp [header13v]) (by simp) (by simp),
      bytesToNat_beBytes _ _ (by norm_num; omega)]
  · show header13v 0 I.length ++
      ((I.map fun i => R.getD i default).map msgBytes).flatten = _
    rw [List.map_map]
    rfl

/-- Evaluation of `c10_duplicates_encoded` selecting index 0 twice. -/
theorem c10_duplicates_encoded_witness :
    ((∀ u ∈ [sampleRecord], ValidRecord u) ∧
     (∀ i ∈ ([0, 0] : List Nat), i < [sampleRecord].length) ∧
     ¬ ([0, 0] : List Nat).Nodup ∧ ([0, 0] : List Nat).length ≤ 65535) ∧
    ∃ res, reencodeSelectedFeeds [sampleRecord] [0, 0] = .ok res ∧
      readBE res.binaryData 11 2 = .ok ([0, 0] : List Nat).length ∧
      res.binaryData = header13v 0 ([0, 0] : List Nat).length ++
        (([0, 0] : List Nat).map fun i =>
          msgBytes ([sampleRecord].getD i default)).flatten :=
  ⟨⟨by decide, by decide, by decide, by decide⟩,
   c10_duplicates_encoded [sampleRecord] [0, 0] (by decide) (by decide)
     (by decide) (by decide)⟩
